import Mathlib

/-!
Verification development for the `syntax` parser-generator repository
(Lua plugin + CLI front-end + generated Lua tokenizer template).

The definitions below are shallow embeddings of:
  * the generated Lua tokenizer (`templates/tokenizer.template.lua`,
    shipped inside the repository source as the second document of the
    unnamed source file): `Tokenizer:initString`, `Tokenizer:getNextToken`,
    `Tokenizer:_match`, `Tokenizer:_captureLocation`, `Tokenizer:_toToken`,
    `Tokenizer:isEOF`, `Tokenizer:hasMoreTokens`, `Tokenizer:pushState`,
    `Tokenizer:begin`, `Tokenizer:popState`, `Tokenizer:getCurrentState`;
  * Lua's built-in `string.find` (a language primitive the template calls),
    modelled for the subset of Lua patterns the repository's grammars use;
  * the CLI front-end (`bin` script): `getLexGrammarData`, the lex-merging
    part of `getGrammar`, and `validateLRGrammar`;
  * the Lua emitter trait (`lr-parser-generator-lua.js` /
    `lua-parser-generator-trait.js`): `buildSemanticAction`,
    `generateLexRules`, `generateLexRulesByStartConditions`, `_toLuaMap`,
    `_generateHandlers`.

Machine strings are modelled as Lean `String` (the repository's inputs are
ASCII, where Lua's byte counts coincide with character counts).
-/

/-! ## String helpers -/

/-- Split a character list at every occurrence of the character `c`
(the model of JavaScript's `String.prototype.split` with a one-character
separator, used by `validateLRGrammar` via `conflict.split('/')`). -/
def splitOnChar (c : Char) : List Char → List (List Char)
  | [] => [[]]
  | x :: xs =>
    let r := splitOnChar c xs
    if x = c then [] :: r
    else
      match r with
      | [] => [[x]]
      | y :: ys => (x :: y) :: ys

/-- JavaScript `Array.prototype.join(sep)`. -/
def joinSep (sep : String) : List String → String
  | [] => ""
  | [x] => x
  | x :: y :: ys => x ++ sep ++ joinSep sep (y :: ys)

/-- `(s ++ t).data = s.data ++ t.data`. -/
theorem strData_append (s t : String) : (s ++ t).data = s.data ++ t.data := rfl

/-! ## Lua pattern matching (model of the built-in `string.find`)

The tokenizer template calls `stringRest:find(pattern)`.  `string.find` is a
Lua language primitive; the model below covers the subset of Lua patterns
appearing in the repository's grammars and spec scenarios: a leading `^`
anchor, literal characters, `%`-escaped literals, the character classes
`%s %d %a %l %u %w`, bracket sets with ranges such as `[a-z]`, `.`, and the
greedy `+` quantifier.  Patterns outside the subset parse to `none` and
never match. -/

/-- One entry of a bracket set `[...]`. -/
inductive SetItem where
  | single (c : Char)
  | range (lo hi : Char)
deriving DecidableEq

/-- A single-character matcher of a Lua pattern. -/
inductive PatCls where
  | any
  | lit (c : Char)
  | pcls (c : Char)
  | set (items : List SetItem)
deriving DecidableEq

/-- Lua predefined character classes (`%s`, `%d`, ...); a `%`-escaped
non-letter is the literal character. -/
def pclsMatch (c x : Char) : Bool :=
  match c with
  | 's' => x = ' ' || x = '\t' || x = '\n' || x = '\r' || x = '\x0b' || x = '\x0c'
  | 'd' => x.isDigit
  | 'a' => x.isAlpha
  | 'l' => x.isLower
  | 'u' => x.isUpper
  | 'w' => x.isAlphanum
  | _ => if c.isAlpha then false else x = c

/-- Does character `x` match the single-character matcher? -/
def classMatch : PatCls → Char → Bool
  | .any, _ => true
  | .lit c, x => x = c
  | .pcls c, x => pclsMatch c x
  | .set items, x =>
    items.any fun it =>
      match it with
      | .single c => x = c
      | .range lo hi => lo ≤ x && x ≤ hi

/-- Parse the body of a bracket set (the characters strictly between
`[` and `]`).  `%` inside a set is outside the modelled subset. -/
def parseSetBody : List Char → Option (List SetItem)
  | [] => some []
  | '%' :: _ => none
  | a :: '-' :: b :: rest =>
    if b = ']' ∨ a = '%' then none
    else (parseSetBody rest).map (.range a b :: ·)
  | c :: rest => (parseSetBody rest).map (.single c :: ·)

/-- Consume an optional `+` quantifier. -/
def splitPlus : List Char → Bool × List Char
  | '+' :: rest => (true, rest)
  | rest => (false, rest)

/-- Parse a pattern (after the optional `^` anchor) into a list of
single-character matchers, each with a `+` flag.  The `Nat` argument is
fuel (each step consumes at least one character, so the pattern length
suffices); fuel keeps the recursion structural so that the kernel can
evaluate the definition. -/
def parseItems : Nat → List Char → Option (List (PatCls × Bool))
  | _, [] => some []
  | 0, _ :: _ => none
  | fuel + 1, '%' :: c :: rest =>
    let pr := splitPlus rest
    (parseItems fuel pr.2).map (((if c.isAlpha then .pcls c else .lit c), pr.1) :: ·)
  | _ + 1, ['%'] => none
  | fuel + 1, '[' :: rest =>
    let body := rest.takeWhile (· ≠ ']')
    match rest.dropWhile (· ≠ ']') with
    | ']' :: rest2 =>
      match parseSetBody body with
      | some items =>
        let pr := splitPlus rest2
        (parseItems fuel pr.2).map ((.set items, pr.1) :: ·)
      | none => none
    | _ => none
  | fuel + 1, '.' :: rest =>
    let pr := splitPlus rest
    (parseItems fuel pr.2).map ((.any, pr.1) :: ·)
  | fuel + 1, c :: rest =>
    if c = '+' ∨ c = '*' ∨ c = '-' ∨ c = '?' ∨ c = '(' ∨ c = ')' ∨ c = '$' then none
    else
      let pr := splitPlus rest
      (parseItems fuel pr.2).map ((.lit c, pr.1) :: ·)

/-- A parsed Lua pattern: optional `^` anchor plus item list. -/
structure LuaPat where
  anchored : Bool
  items : List (PatCls × Bool)
deriving DecidableEq

/-- Parse a full Lua pattern string (subset). -/
def parsePattern (pat : String) : Option LuaPat :=
  match pat.data with
  | '^' :: rest => (parseItems rest.length rest).map (⟨true, ·⟩)
  | cs => (parseItems cs.length cs).map (⟨false, ·⟩)

/-- Lua's `max_expand`: try the longest repetition first, backing off until
the rest of the pattern matches; `+` requires at least one repetition.
`k` is the matcher for the rest of the pattern, the `Nat` is the current
repetition count being tried. -/
def expandMax (k : List Char → Option Nat) (xs : List Char) : Nat → Option Nat
  | 0 => none
  | j + 1 =>
    match k (xs.drop (j + 1)) with
    | some m => some (j + 1 + m)
    | none => expandMax k xs j

/-- Match the item list against a prefix of `xs`; returns the matched
length (Lua's pattern machine at a fixed starting position). -/
def matchItems : List (PatCls × Bool) → List Char → Option Nat
  | [], _ => some 0
  | (_, false) :: _, [] => none
  | (cls, false) :: ps, x :: xs =>
    if classMatch cls x then (matchItems ps xs).map (· + 1) else none
  | (cls, true) :: ps, xs =>
    expandMax (fun ys => matchItems ps ys) xs (xs.takeWhile (classMatch cls)).length

/-- Try successive start positions (Lua `string.find` without an anchor
scans forward); returns the 0-based start position and matched length. -/
def findFrom (items : List (PatCls × Bool)) : List Char → Nat → Option (Nat × Nat)
  | cs, pos =>
    match matchItems items cs with
    | some n => some (pos, n)
    | none =>
      match cs with
      | [] => none
      | _ :: rest => findFrom items rest (pos + 1)

/-- Model of Lua `string.find(s, pattern)` (subset): returns the 0-based
start position of the first match and the matched substring, or `none`.
An anchored pattern is tried only at position 0. -/
def luaFind (s pat : String) : Option (Nat × String) :=
  match parsePattern pat with
  | none => none
  | some p =>
    let cs := s.data
    if p.anchored then
      (matchItems p.items cs).map fun n => (0, String.mk (cs.take n))
    else
      (findFrom p.items cs 0).map fun pn =>
        (pn.1, String.mk ((cs.drop pn.1).take pn.2))

/-! ## The generated Lua tokenizer (tokenizer.template.lua) -/

/-- What a lex-rule handler (`Tokenizer:_lexRuleN`) evaluates to, as used by
`getNextToken`: Lua `nil`/`false` (skip), a single token-type string, or a
table of token-type strings. -/
inductive LexResult where
  | skip
  | one (ty : String)
  | many (tys : List String)

/-- The tokenizer state: the fields set by `Tokenizer:initString`.
Line numbers and offsets are the Lua numbers held in the corresponding
fields; columns are `Int` because they are computed by subtraction. -/
structure TokState where
  string : String
  states : List String
  cursor : Nat
  tokensQueue : List String
  currentLine : Nat
  currentColumn : Int
  currentLineBeginOffset : Nat
  tokenStartOffset : Nat
  tokenEndOffset : Nat
  tokenStartLine : Nat
  tokenEndLine : Nat
  tokenStartColumn : Int
  tokenEndColumn : Int
deriving DecidableEq

/-- The static data of a generated tokenizer: `lexRules` (pattern and
handler for each rule, handlers modelled by their evaluation on `yytext`),
`lexRulesByConditions` (start condition → 0-based rule indices, as emitted
by `generateLexRulesByStartConditions`), and `tokensMap`. -/
structure TokCfg where
  lexRules : List (String × (String → LexResult))
  lexRulesByConditions : String → List Nat
  tokensMap : String → Option Nat

/-- A token built by `Tokenizer:_toToken` / the `Token` constructor.
`EOF_TOKEN` carries only `type`, hence the `Option` fields. -/
structure Token where
  type : Option Nat
  value : Option String
  startOffset : Option Nat
  endOffset : Option Nat
  startLine : Option Nat
  endLine : Option Nat
  startColumn : Option Int
  endColumn : Option Int
deriving DecidableEq

/-- `Tokenizer:initString`. -/
def initString (tokenizingString : String) : TokState :=
  { string := tokenizingString
    states := ["INITIAL"]
    cursor := 0
    tokensQueue := []
    currentLine := 1
    currentColumn := 0
    currentLineBeginOffset := 0
    tokenStartOffset := 0
    tokenEndOffset := 0
    tokenStartLine := 1
    tokenEndLine := 1
    tokenStartColumn := 0
    tokenEndColumn := 0 }

/-- `Tokenizer:getCurrentState` (`self._states[#self._states]`); `none`
models the Lua `nil` read on an empty stack. -/
def getCurrentState (states : List String) : Option String :=
  states.getLast?

/-- The current state with Lua's `nil` defaulted, as used when indexing
`lexRulesByConditions` (the empty-stack case is unreachable, see the
stack invariant below). -/
def getCurrentStateD (st : TokState) : String :=
  st.states.getLastD ""

/-- `Tokenizer:pushState` (`table.insert` appends, so the top of the stack
is the last element). -/
def pushState (states : List String) (state : String) : List String :=
  states ++ [state]

/-- `Tokenizer:begin` is an alias for `pushState`. -/
def beginState (states : List String) (state : String) : List String :=
  pushState states state

/-- `Tokenizer:popState`: removes and returns the top state when more than
one state remains, otherwise returns the bottom state without removing. -/
def popState (states : List String) : String × List String :=
  if 1 < states.length then (states.getLastD "", states.dropLast)
  else (states.headD "", states)

/-- One stack operation of the tokenizer's start-condition API. -/
inductive StackOp where
  | push (s : String)
  | begin (s : String)
  | pop

/-- Apply one stack operation to the `_states` stack. -/
def applyOp (states : List String) : StackOp → List String
  | .push s => pushState states s
  | .begin s => beginState states s
  | .pop => (popState states).2

/-- `Tokenizer:isEOF` (`self._cursor == #self._string`). -/
def isEOF (st : TokState) : Bool :=
  st.cursor = st.string.length

/-- `Tokenizer:hasMoreTokens` (`self._cursor <= #self._string`). -/
def hasMoreTokens (st : TokState) : Bool :=
  st.cursor ≤ st.string.length

/-- `self._string:sub(self._cursor + 1)`. -/
def strRest (st : TokState) : String :=
  st.string.drop st.cursor

/-- `Tokenizer:_captureLocation`.  The Lua loop walks the `\n` occurrences
of the matched lexeme; every iteration increments `_currentLine` and sets
`_currentLineBeginOffset = self._cursor + 1` (the template's commented
"assume 1 char per \\n" simplification: the final value is `cursor + 1`
whenever the lexeme contains at least one newline). -/
def captureLocation (st : TokState) (matched : String) : TokState :=
  let nl := matched.data.count '\n'
  let newLineBegin := if 0 < nl then st.cursor + 1 else st.currentLineBeginOffset
  let endOffset := st.cursor + matched.length
  let endColumn : Int := (endOffset : Int) - (newLineBegin : Int)
  { st with
    tokenStartOffset := st.cursor
    tokenStartLine := st.currentLine
    tokenStartColumn := (st.cursor : Int) - (st.currentLineBeginOffset : Int)
    currentLine := st.currentLine + nl
    currentLineBeginOffset := newLineBegin
    tokenEndOffset := endOffset
    tokenEndLine := st.currentLine + nl
    currentColumn := endColumn
    tokenEndColumn := endColumn }

/-- `Tokenizer:_match`: `local s, e = stringRest:find(pattern)`; on success
captures the location of the matched substring and advances the cursor by
its length (note: by the match length only, regardless of the match's
start position within `stringRest`). -/
def tokenizerMatch (st : TokState) (stringRest pattern : String) :
    Option (String × TokState) :=
  match luaFind stringRest pattern with
  | some (_, matched) =>
    let st' := captureLocation st matched
    some (matched, { st' with cursor := st'.cursor + matched.length })
  | none => none

/-- The rule loop of `getNextToken`: try the rules of the current start
condition in their listed order (`lexRules[lexRuleIndex + 1]`, indices are
0-based in the emitted `lexRulesByConditions`); the first rule whose
pattern `find`s a match wins.  An index outside `lexRules` reads `nil` in
Lua (a runtime error when the rule is used); such indices are skipped. -/
def tryMatchRules (cfg : TokCfg) (st : TokState) (stringRest : String) :
    List Nat → Option (String × (String → LexResult) × TokState)
  | [] => none
  | i :: rest =>
    match cfg.lexRules.get? i with
    | some rule =>
      match tokenizerMatch st stringRest rule.1 with
      | some (matched, st') => some (matched, rule.2, st')
      | none => tryMatchRules cfg st stringRest rest
    | none => tryMatchRules cfg st stringRest rest

/-- The `if stringRest == '' and matched == '' then self._cursor = self._cursor + 1`
adjustment inside the rule loop of `getNextToken`. -/
def scanBump (st : TokState) (stringRest matched : String) : TokState :=
  if stringRest = "" ∧ matched = "" then { st with cursor := st.cursor + 1 }
  else st

/-- `Tokenizer:_toToken` (`yytext = yytext or ""`; the token's `type` is
`tokensMap[tokenType]`). -/
def toToken (cfg : TokCfg) (st : TokState) (tokenType : Option String)
    (yytext : String) : Token :=
  { type := tokenType.bind cfg.tokensMap
    value := some yytext
    startOffset := some st.tokenStartOffset
    endOffset := some st.tokenEndOffset
    startLine := some st.tokenStartLine
    endLine := some st.tokenEndLine
    startColumn := some st.tokenStartColumn
    endColumn := some st.tokenEndColumn }

/-- `EOF_TOKEN = {type = tokensMap[EOF]}` with `EOF = '$'`. -/
def eofToken (cfg : TokCfg) : Token :=
  { type := cfg.tokensMap "$"
    value := none
    startOffset := none
    endOffset := none
    startLine := none
    endLine := none
    startColumn := none
    endColumn := none }

/-- Result of one `getNextToken` call: a token with the updated tokenizer
state, the `throwUnexpectedToken` error (carrying `stringRest:sub(1,1)`,
`self._currentLine`, `self._currentColumn`; the pretty-printed message
built around them is elided), or fuel exhaustion of the model (the Lua
original recurses on skipped lexemes and can diverge on empty matches). -/
inductive GetTokRes where
  | tok (t : Token) (st : TokState)
  | unexpected (symbol : String) (line : Nat) (column : Int)
  | fuelOut
deriving DecidableEq

/-- `Tokenizer:getNextToken`. -/
def getNextToken (cfg : TokCfg) : Nat → TokState → GetTokRes
  | 0, _ => .fuelOut
  | fuel + 1, st =>
    match st.tokensQueue with
    | q :: qs =>
      let st' := { st with tokensQueue := qs }
      .tok (toToken cfg st' (some q) "") st'
    | [] =>
      if hasMoreTokens st then
        let stringRest := strRest st
        match tryMatchRules cfg st stringRest
            (cfg.lexRulesByConditions (getCurrentStateD st)) with
        | some (matched, handler, st') =>
          let st'' := scanBump st' stringRest matched
          match handler matched with
          | .skip => getNextToken cfg fuel st''
          | .one ty => .tok (toToken cfg st'' (some ty) matched) st''
          | .many tys =>
            let st3 := { st'' with tokensQueue := tys.drop 1 ++ st''.tokensQueue }
            .tok (toToken cfg st3 tys.head? matched) st3
        | none =>
          if isEOF st then .tok (eofToken cfg) { st with cursor := st.cursor + 1 }
          else .unexpected (stringRest.take 1) st.currentLine st.currentColumn
      else .tok (eofToken cfg) st

/-- Drive `getNextToken` to completion: collect tokens until the returned
token is `EOF_TOKEN` (`none` on fuel exhaustion or an unexpected-token
error). -/
def getTokens (cfg : TokCfg) : Nat → TokState → Option (List Token)
  | 0, _ => none
  | fuel + 1, st =>
    match getNextToken cfg (fuel + 1) st with
    | .fuelOut => none
    | .unexpected _ _ _ => none
    | .tok t st' =>
      if t = eofToken cfg then some [t]
      else (getTokens cfg fuel st').map (t :: ·)

/-! ## CLI front-end: lex-grammar data assembly (`getLexGrammarData`,
lex merging in `getGrammar`) -/

/-- The lex sub-record of grammar data: `rules` is a list of
`[matcher, action]` pairs, `options` an option map (only boolean options
appear here). -/
structure LexData where
  rules : List (String × String)
  options : List (String × Bool)
deriving DecidableEq

/-- JavaScript property assignment on an option object
(`data.options['case-insensitive'] = true`). -/
def setOpt (opts : List (String × Bool)) (key : String) (v : Bool) :
    List (String × Bool) :=
  if opts.any (·.1 = key) then
    opts.map fun e => if e.1 = key then (e.1, v) else e
  else opts ++ [(key, v)]

/-- `getLexGrammarData(options)`: `lexFile` is the data loaded from the
`--lex` file when that option is passed; then the `ignore-whitespaces`
injection (`{rules: [['\\s+', '']]}`) when no data exists yet, and the
`case-insensitive` option flag. -/
def getLexGrammarData (lexFile : Option LexData) (ignoreWhitespaces : Bool)
    (caseInsensitive : Bool) : Option LexData :=
  let data := lexFile
  let data := if ignoreWhitespaces ∧ data.isNone
    then some { rules := [("\\s+", "")], options := [] }
    else data
  if caseInsensitive then
    let d := data.getD { rules := [], options := [] }
    some { d with options := setOpt d.options "case-insensitive" true }
  else data

/-- The lex-merging step of `getGrammar`: when the grammar file has no
`lex` section the external data is used; otherwise the external rules are
appended (`grammarData.lex.rules.push(...lexGrammarData.rules)`). -/
def mergeLexData (grammarLex : Option LexData) (ext : Option LexData) :
    Option LexData :=
  match grammarLex with
  | none => ext
  | some g =>
    match ext with
    | none => some g
    | some e => some { g with rules := g.rules ++ e.rules }

/-! ## CLI front-end: `validateLRGrammar`

`LRParsingTable` (its `getConflictsData`, `getEntryType`, `splitSRParts`)
is not part of the source files under review; only its caller
`validateLRGrammar` is.  The entry-string encoding is therefore modelled
from the spec (§4.4): `s<state>` shift, `r<production>` reduce, and a
slash-separated composite such as `s5/r3` or `r2/r4` for an unresolved
conflict. -/

/-- One cell of `table.getConflictsData()`: whether the conflict was
resolved, and the composite conflict entry string. -/
structure ConflictCell where
  resolved : Bool
  conflict : String
deriving DecidableEq

/-- `getConflictsData()` as consumed by `validateLRGrammar`:
per state, per symbol, a conflict cell (association lists model the
insertion-ordered JavaScript objects). -/
abbrev ConflictsData := List (String × List (String × ConflictCell))

/-- Conflict kinds distinguished by `LRParsingTable.getEntryType` as used
in `validateLRGrammar`. -/
inductive LREntryKind where
  | srConflict
  | rrConflict
  | unknown
deriving DecidableEq

/-- Modelled from the spec: `LRParsingTable.getEntryType` (the table class
is not under the reviewed sources) restricted to what `validateLRGrammar`
consults — a slash composite with two reduce parts is a reduce-reduce
conflict, a composite of a shift part and a reduce part is shift-reduce. -/
def getEntryType (entry : String) : LREntryKind :=
  match splitOnChar '/' entry.data with
  | [p1, p2] =>
    if p1.head? = some 'r' ∧ p2.head? = some 'r' then .rrConflict
    else if (p1.head? = some 's' ∧ p2.head? = some 'r') ∨
        (p1.head? = some 'r' ∧ p2.head? = some 's') then .srConflict
    else .unknown
  | _ => .unknown

/-- Modelled from the spec: `LRParsingTable.splitSRParts`, returning the
reduce part first (the caller takes `srParts[0]` as the reduce part and
feeds `reducePart.slice(1)` to `grammar.getProduction`). -/
def splitSRParts (entry : String) : String × String :=
  match splitOnChar '/' entry.data with
  | [p1, p2] =>
    if p1.head? = some 'r' then (String.mk p1, String.mk p2)
    else (String.mk p2, String.mk p1)
  | _ => (entry, "")

/-- The reducing production number (as a string) named by a shift-reduce
conflict entry: `reducePart.slice(1)`.  `grammar.getProduction` is an
injective array lookup, so productions are identified by this number. -/
def srReduceProd (entry : String) : String :=
  String.mk (splitSRParts entry).1.data.tail

/-- The two production numbers of a reduce-reduce conflict entry
(`rrParts[0].slice(1)`, `rrParts[1].slice(1)`). -/
def rrVal (entry : String) : String × String :=
  let parts := splitOnChar '/' entry.data
  (String.mk (parts.getD 0 []).tail, String.mk (parts.getD 1 []).tail)

/-- `srConflicts.get(production) || []; data.push(symbol); srConflicts.set(...)`:
a JavaScript `Map` keyed by reducing production, accumulating the
conflicting lookahead symbols in encounter order. -/
def addSR (m : List (String × List String)) (key symbol : String) :
    List (String × List String) :=
  if m.any (·.1 = key) then
    m.map fun e => if e.1 = key then (e.1, e.2 ++ [symbol]) else e
  else m ++ [(key, [symbol])]

/-- `rrConflicts.set(conflict, {production1, production2})`: a JavaScript
`Map` keyed by the conflict entry string. -/
def addRR (m : List (String × (String × String))) (key : String)
    (v : String × String) : List (String × (String × String)) :=
  if m.any (·.1 = key) then
    m.map fun e => if e.1 = key then (e.1, v) else e
  else m ++ [(key, v)]

/-- The aggregation state of `validateLRGrammar`'s conflict walk. -/
structure ValidateAcc where
  hasConflicts : Bool
  srConflicts : List (String × List String)
  rrConflicts : List (String × (String × String))
deriving DecidableEq

/-- Processing of one `(symbol, symbolConflict)` pair inside the state
loop of `validateLRGrammar`; an unresolved conflict of unknown shape
throws (`Unknown conflict type`). -/
def processCell (acc : ValidateAcc) (symbol : String) (cell : ConflictCell) :
    Except String ValidateAcc :=
  if cell.resolved = false then
    match getEntryType cell.conflict with
    | .srConflict =>
      .ok { acc with
        hasConflicts := true
        srConflicts := addSR acc.srConflicts (srReduceProd cell.conflict) symbol }
    | .rrConflict =>
      .ok { acc with
        hasConflicts := true
        rrConflicts := addRR acc.rrConflicts cell.conflict (rrVal cell.conflict) }
    | .unknown => .error ("Unknown conflict type: " ++ cell.conflict)
  else .ok acc

/-- The inner symbol loop of `validateLRGrammar`. -/
def processCells (acc : ValidateAcc) :
    List (String × ConflictCell) → Except String ValidateAcc
  | [] => .ok acc
  | (sym, cell) :: rest =>
    match processCell acc sym cell with
    | .ok acc' => processCells acc' rest
    | .error e => .error e

/-- The outer state loop of `validateLRGrammar`. -/
def processStates (acc : ValidateAcc) :
    ConflictsData → Except String ValidateAcc
  | [] => .ok acc
  | (_, cells) :: rest =>
    match processCells acc cells with
    | .ok acc' => processStates acc' rest
    | .error e => .error e

/-- `validateLRGrammar`, as the aggregation it performs over the conflicts
data before printing the diagnostics; the function prints and returns
normally (it never calls `process.exit`), which the `Except.ok` result
models.  `.error` models the `throw` on an unknown conflict type. -/
def validateLRGrammar (data : ConflictsData) : Except String ValidateAcc :=
  processStates ⟨false, [], []⟩ data

/-! ## Lua emitter (`lua-parser-generator-trait.js`) -/

/-- A lex rule as the emitter sees it: `getRawMatcher()`,
`getRawHandler()`, `isCaseInsensitive()` (the `LexRule` accessors return
the raw strings stored from the grammar file). -/
structure LexRuleData where
  rawMatcher : String
  rawHandler : String
  caseInsensitive : Bool
deriving DecidableEq

/-- An entry of `this._lexHandlers` / `this._productionHandlers`. -/
structure Handler where
  args : String
  action : String
deriving DecidableEq

/-- A production as `buildSemanticAction` sees it:
`getSemanticActionCode(production)` and `getSemanticActionParams(production)`. -/
structure ProdData where
  params : List String
  actionCode : String
deriving DecidableEq

/-- The values `_toLuaMap` converts (JavaScript data reaching the
emitter). -/
inductive LuaVal where
  | nil
  | num (n : Int)
  | bool (b : Bool)
  | str (s : String)
  | arr (items : List LuaVal)
  | obj (entries : List (String × LuaVal))

/-- `value.replace(/"/g, '\\"')`: escape every double quote. -/
def escapeQuotes (s : String) : String :=
  String.mk (s.data.flatMap fun c => if c = '"' then ['\\', '"'] else [c])

/-- The `/^[a-zA-Z_][a-zA-Z0-9_]*$/` key test of `_toLuaMap`. -/
def validLuaKey (k : String) : Bool :=
  match k.data with
  | [] => false
  | c :: cs => (c.isAlpha || c = '_') && cs.all fun d => d.isAlphanum || d = '_'

mutual

/-- `_toLuaMap` (`_toLuaMapInner`): converts a JavaScript value to Lua
table syntax.  Iteration over object entries is `Object.entries`, i.e.
insertion order, modelled by the association list order. -/
def toLuaMap : LuaVal → String
  | .nil => "nil"
  | .num n => toString n
  | .bool b => toString b
  | .str s => "\"" ++ escapeQuotes s ++ "\""
  | .arr items => "\x7b" ++ joinSep ", " (toLuaMapList items) ++ "\x7d"
  | .obj entries => "\x7b" ++ joinSep ", " (toLuaMapObj entries) ++ "\x7d"

/-- `value.map(_toLuaMapInner)` over an array. -/
def toLuaMapList : List LuaVal → List String
  | [] => []
  | v :: vs => toLuaMap v :: toLuaMapList vs

/-- `Object.entries(value).map(([k, v]) => ...)` over an object. -/
def toLuaMapObj : List (String × LuaVal) → List String
  | [] => []
  | (k, v) :: es =>
    ((if validLuaKey k then k else "[\"" ++ k ++ "\"]") ++ " = " ++ toLuaMap v)
      :: toLuaMapObj es

end

/-- One emitted `lexRules` entry:
`` `{[[${lexRule.getRawMatcher()}${flags.join('')}]], "_lexRule${n}"}` ``
where `n` is the length of `_lexHandlers` after the rule's handler was
pushed. -/
def lexRuleEntry (r : LexRuleData) (n : Nat) : String :=
  "\x7b[[" ++ r.rawMatcher ++ (if r.caseInsensitive then "i" else "") ++
    "]], \"_lexRule" ++ toString n ++ "\"\x7d"

/-- The body of `generateLexRules`: maps over the lex rules, pushing
`{args: '', action: getRawHandler() + ';'}` onto `this._lexHandlers` and
naming each rule's handler by the accumulated length.  Returns the entry
strings and the final handler list. -/
def generateLexRulesAux : List LexRuleData → List Handler →
    List String × List Handler
  | [], hs => ([], hs)
  | r :: rs, hs =>
    let hs' := hs ++ [⟨"", r.rawHandler ++ ";"⟩]
    let entry := lexRuleEntry r hs'.length
    let res := generateLexRulesAux rs hs'
    (entry :: res.1, res.2)

/-- The `LEX_RULES` data written by `generateLexRules`
(`` `{ ${lexRules.join(',\n')} }` ``). -/
def generateLexRules (rules : List LexRuleData) : String :=
  "\x7b " ++ joinSep ",\n" (generateLexRulesAux rules []).1 ++ " \x7d"

/-- `buildSemanticAction(production)`: `null` for an empty action;
otherwise pushes `{args, action + ';'}` and returns
`` `_handler${length}` ``. -/
def buildSemanticAction (hs : List Handler) (p : ProdData) :
    Option String × List Handler :=
  if p.actionCode = "" then (none, hs)
  else
    let hs' := hs ++ [⟨joinSep "," p.params, p.actionCode ++ ";"⟩]
    (some ("_handler" ++ toString hs'.length), hs')

/-- `buildSemanticAction` over all productions in order, threading
`this._productionHandlers`. -/
def buildAllSemanticActions : List ProdData → List Handler →
    List (Option String) × List Handler
  | [], hs => ([], hs)
  | p :: ps, hs =>
    let r := buildSemanticAction hs p
    let res := buildAllSemanticActions ps r.2
    (r.1 :: res.1, res.2)

/-- One declaration produced by `_generateHandlers`:
`` `\nfunction ${class_prefix}${name}${index + 1}(${args})\n\t\t${action}\nend` ``. -/
def handlerDecl (classPrefix name : String) (index : Nat) (h : Handler) :
    String :=
  "\nfunction " ++ classPrefix ++ name ++ toString (index + 1) ++ "(" ++
    h.args ++ ")\n\t\t" ++ h.action ++ "\nend"

/-- `handlers.map((handler, index) => ...)` of `_generateHandlers`,
starting at index `i`. -/
def generateHandlersFrom (classPrefix name : String) (i : Nat) :
    List Handler → List String
  | [] => []
  | h :: hs => handlerDecl classPrefix name i h ::
      generateHandlersFrom classPrefix name (i + 1) hs

/-- `generateLexHandlers`: the `LEX_RULE_HANDLERS` data
(`handlers.join('\n\n')` over `_generateHandlers(this._lexHandlers,
'Tokenizer:', '_lexRule', '')`). -/
def generateLexHandlers (rules : List LexRuleData) : String :=
  joinSep "\n\n"
    (generateHandlersFrom "Tokenizer:" "_lexRule" 0 (generateLexRulesAux rules []).2)

/-- `generateProductionHandlers`: the `PRODUCTION_HANDLERS` data
(`handlers.join('\n')` over `_generateHandlers(this._productionHandlers,
'parser:', '_handler', '')`). -/
def generateProductionHandlers (prods : List ProdData) : String :=
  joinSep "\n"
    (generateHandlersFrom "parser:" "_handler" 0 (buildAllSemanticActions prods []).2)

/-- `generateLexRulesByStartConditions`: builds the object mapping each
start condition to the rule indices (`getRuleIndex`) and renders it with
`_toLuaMap`. -/
def generateLexRulesByStartConditions
    (byConditions : List (String × List Nat)) : String :=
  toLuaMap (.obj (byConditions.map fun e => (e.1, .arr (e.2.map (.num ·)))))

/-- The grammar-derived data the Lua emitter writes into the template. -/
structure EmitInput where
  table : LuaVal
  tokens : LuaVal
  lexRules : List LexRuleData
  byConditions : List (String × List Nat)
  productions : List ProdData

/-- The Lua emitter's exports, keyed by the template placeholders the
trait's `writeData` calls fill (`TABLE`, `TOKENS`, `LEX_RULES`,
`LEX_RULES_BY_START_CONDITIONS`, `LEX_RULE_HANDLERS`,
`PRODUCTION_HANDLERS`). -/
def emitLua (inp : EmitInput) : List (String × String) :=
  [("TABLE", toLuaMap inp.table),
   ("TOKENS", toLuaMap inp.tokens),
   ("LEX_RULES", generateLexRules inp.lexRules),
   ("LEX_RULES_BY_START_CONDITIONS",
     generateLexRulesByStartConditions inp.byConditions),
   ("LEX_RULE_HANDLERS", generateLexHandlers inp.lexRules),
   ("PRODUCTION_HANDLERS", generateProductionHandlers inp.productions)]

/-- `b` occurs character-for-character, contiguously, inside `s`. -/
def strOccurs (b s : String) : Prop :=
  ∃ p q, s.data = p ++ b.data ++ q

/-- The closed form of the `lexRules` entry list: rule `i` (0-based) is
rendered with handler name `_lexRule(i+1)`. -/
def lexRuleEntriesFrom (n : Nat) : List LexRuleData → List String
  | [] => []
  | r :: rs => lexRuleEntry r (n + 1) :: lexRuleEntriesFrom (n + 1) rs

/-! ## Concrete tokenizer configurations for evaluation

`numberCfg` uses the `%d+ → NUMBER` rule of the repository's example
grammar `examples/calc.lua.g` exactly as `generateLexRules` emits it (the
raw matcher, without any anchor).  `s6Cfg` is the spec's scenario S6
(`[a-z]+ → ID`, whitespace skipped) with the `%s+` whitespace rule written
as a Lua pattern, again unanchored as emitted. -/

def numberCfg : TokCfg :=
  { lexRules := [("%d+", fun _ => .one "NUMBER")]
    lexRulesByConditions := fun _ => [0]
    tokensMap := fun s =>
      if s = "NUMBER" then some 1 else if s = "$" then some 2 else none }

def s6Cfg : TokCfg :=
  { lexRules := [("[a-z]+", fun _ => .one "ID"), ("%s+", fun _ => .skip)]
    lexRulesByConditions := fun _ => [0, 1]
    tokensMap := fun s =>
      if s = "ID" then some 1 else if s = "$" then some 2 else none }

/-! ## Theorems -/

/-- C2: the choice of lex rule is NOT anchored at the cursor.  On input
`"a1"` with the single rule `%d+ → NUMBER` (the raw matcher of
`examples/calc.lua.g`, as emitted), the first `getNextToken` call returns
a `NUMBER` token whose lexeme is `"1"`, although the character at the
cursor (offset 0) is `'a'`: Lua's `string.find` matched at offset 1 and
`_match` still advanced the cursor by only the match length.  The claim
that "the rule chosen is the first whose pattern matches the input
anchored exactly at the cursor position; the matched lexeme always begins
at the cursor" is false of the code. -/
theorem c2_unanchored_match_eval :
    getNextToken numberCfg 5 (initString "a1") =
      .tok
        { type := some 1, value := some "1", startOffset := some 0,
          endOffset := some 1, startLine := some 1, endLine := some 1,
          startColumn := some 0, endColumn := some 1 }
        { string := "a1", states := ["INITIAL"], cursor := 1,
          tokensQueue := [], currentLine := 1, currentColumn := 1,
          currentLineBeginOffset := 0, tokenStartOffset := 0,
          tokenEndOffset := 1, tokenStartLine := 1, tokenEndLine := 1,
          tokenStartColumn := 0, tokenEndColumn := 1 } ∧
    "a1".data.head? = some 'a' := by
  constructor
  · decide
  · decide

/-- C3: spec scenario S6 fails on the code.  Tokenizing `"ab\ncd"` with
rules `[a-z]+ → ID`, `%s+ → skip` yields THREE `ID` tokens — the second is
`"cd"` with start `(line 1, column 2)` and end `(line 1, column 4)`
instead of the claimed start `(line 2, column 0)` / end `(line 2, column
2)` — because the unanchored `find` lets `[a-z]+` match `"cd"` beyond the
newline before the whitespace rule is ever tried, so the newline is never
consumed and the line counter never advances. -/
theorem c3_location_s6_eval :
    getTokens s6Cfg 10 (initString "ab\ncd") =
      some
        [{ type := some 1, value := some "ab", startOffset := some 0,
           endOffset := some 2, startLine := some 1, endLine := some 1,
           startColumn := some 0, endColumn := some 2 },
         { type := some 1, value := some "cd", startOffset := some 2,
           endOffset := some 4, startLine := some 1, endLine := some 1,
           startColumn := some 2, endColumn := some 4 },
         { type := some 1, value := some "d", startOffset := some 4,
           endOffset := some 5, startLine := some 1, endLine := some 1,
           startColumn := some 4, endColumn := some 5 },
         { type := some 2, value := none, startOffset := none,
           endOffset := none, startLine := none, endLine := none,
           startColumn := none, endColumn := none }] := by
  decide

/-- C6: unmatched input IS silently skipped.  On input `"a1"` with the
single rule `%d+ → NUMBER`, no rule matches at the cursor position 0
(`'a'` is not a digit), yet tokenization completes without any
`UnexpectedToken` error: the `'a'` is silently dropped and the digit
`"1"` is even emitted twice (the cursor advances only by the match
length).  The claim that the tokenizer "never silently skips unmatched
input" is false of the code. -/
theorem c6_silent_skip_eval :
    getTokens numberCfg 9 (initString "a1") =
      some
        [{ type := some 1, value := some "1", startOffset := some 0,
           endOffset := some 1, startLine := some 1, endLine := some 1,
           startColumn := some 0, endColumn := some 1 },
         { type := some 1, value := some "1", startOffset := some 1,
           endOffset := some 2, startLine := some 1, endLine := some 1,
           startColumn := some 1, endColumn := some 2 },
         { type := some 2, value := none, startOffset := none,
           endOffset := none, startLine := none, endLine := none,
           startColumn := none, endColumn := none }] ∧
    "a1".data.head? = some 'a' ∧ pclsMatch 'd' 'a' = false := by
  refine ⟨by decide, by decide, by decide⟩

/-- The `_states` stack keeps at least one element under any stack
operation. -/
theorem applyOp_length_pos (states : List String) (op : StackOp)
    (h : 1 ≤ states.length) : 1 ≤ (applyOp states op).length := by
  cases op with
  | push s => simp [applyOp, pushState]
  | begin s => simp [applyOp, beginState, pushState]
  | pop =>
    by_cases hlen : 1 < states.length
    · simp [applyOp, popState, hlen, List.length_dropLast]
      omega
    · simp [applyOp, popState, hlen]
      exact h

/-- The stack invariant is preserved by any sequence of operations. -/
theorem foldl_applyOp_length_pos (ops : List StackOp) :
    ∀ states : List String, 1 ≤ states.length →
      1 ≤ (List.foldl applyOp states ops).length := by
  induction ops with
  | nil => intro states h; simpa using h
  | cons op rest ih =>
    intro states h
    simp only [List.foldl_cons]
    exact ih _ (applyOp_length_pos states op h)

/-- C10: the start-condition stack is never empty.  `initString` sets it
to the single state `INITIAL`; after any sequence of `pushState`,
`begin`, and `popState` calls it still has at least one element (in
particular `popState` never removes the last remaining state), so
`getCurrentState` (`self._states[#self._states]`) is always defined. -/
theorem c10_state_stack_nonempty (s : String) (ops : List StackOp) :
    (initString s).states = ["INITIAL"] ∧
    1 ≤ (List.foldl applyOp (initString s).states ops).length ∧
    (getCurrentState (List.foldl applyOp (initString s).states ops)).isSome
      = true := by
  refine ⟨rfl, foldl_applyOp_length_pos ops _ (by simp [initString]), ?_⟩
  have h := foldl_applyOp_length_pos ops (initString s).states
    (by simp [initString])
  revert h
  cases List.foldl applyOp (initString s).states ops with
  | nil => intro h; simp at h
  | cons a l => intro h; simp [getCurrentState]

/-- C8: with `--ignore-whitespaces` set and no external lex file, exactly
one lex rule `\s+` with the empty (skip) action is injected; and when the
grammar has its own `lex` section, its rules are kept (as a prefix) and
any externally supplied rules are appended, never replacing them. -/
theorem c8_lex_injection_and_merge :
    (∀ ci : Bool, ∃ d, getLexGrammarData none true ci = some d ∧
      d.rules = [("\\s+", "")]) ∧
    (∀ (g : LexData) (ext : Option LexData), ∃ d,
      mergeLexData (some g) ext = some d ∧
      d.rules = g.rules ++ (match ext with | none => [] | some e => e.rules) ∧
      d.options = g.options) := by
  constructor
  · intro ci
    cases ci with
    | false => exact ⟨⟨[("\\s+", "")], []⟩, by decide, by decide⟩
    | true =>
      exact ⟨⟨[("\\s+", "")], [("case-insensitive", true)]⟩, by decide, by decide⟩
  · intro g ext
    cases ext with
    | none => exact ⟨g, rfl, by simp, rfl⟩
    | some e => exact ⟨{ g with rules := g.rules ++ e.rules }, rfl, rfl, rfl⟩

/-- C4: (1) when the matched rule's handler returns nothing, the lexeme is
skipped and `getNextToken` continues scanning from the advanced state;
(2) when the handler returns a sequence of token types, the first type
becomes the returned token and the remaining types are placed at the front
of the queue in order; (3) a nonempty queue is served first: the next
calls return the queued types in order with the cursor unchanged, before
any further input is scanned. -/
theorem c4_skip_and_queue :
    (∀ (cfg : TokCfg) (fuel : Nat) (st : TokState) (matched : String)
        (handler : String → LexResult) (st' : TokState),
      st.tokensQueue = [] →
      hasMoreTokens st = true →
      tryMatchRules cfg st (strRest st)
        (cfg.lexRulesByConditions (getCurrentStateD st)) =
          some (matched, handler, st') →
      handler matched = .skip →
      getNextToken cfg (fuel + 1) st =
        getNextToken cfg fuel (scanBump st' (strRest st) matched)) ∧
    (∀ (cfg : TokCfg) (fuel : Nat) (st : TokState) (matched : String)
        (handler : String → LexResult) (st' : TokState) (t : String)
        (ts : List String),
      st.tokensQueue = [] →
      hasMoreTokens st = true →
      tryMatchRules cfg st (strRest st)
        (cfg.lexRulesByConditions (getCurrentStateD st)) =
          some (matched, handler, st') →
      handler matched = .many (t :: ts) →
      getNextToken cfg (fuel + 1) st =
        .tok
          (toToken cfg
            { scanBump st' (strRest st) matched with
              tokensQueue :=
                ts ++ (scanBump st' (strRest st) matched).tokensQueue }
            (some t) matched)
          { scanBump st' (strRest st) matched with
            tokensQueue :=
              ts ++ (scanBump st' (strRest st) matched).tokensQueue }) ∧
    (∀ (cfg : TokCfg) (fuel : Nat) (st : TokState) (q : String)
        (qs : List String),
      st.tokensQueue = q :: qs →
      getNextToken cfg (fuel + 1) st =
        .tok (toToken cfg { st with tokensQueue := qs } (some q) "")
          { st with tokensQueue := qs } ∧
      ({ st with tokensQueue := qs }).cursor = st.cursor) := by
  refine ⟨?_, ?_, ?_⟩
  · intro cfg fuel st matched handler st' hq hm htry hact
    simp only [getNextToken, hq, hm, htry, hact, if_true]
  · intro cfg fuel st matched handler st' t ts hq hm htry hact
    simp only [getNextToken, hq, hm, htry, hact, if_true, List.drop_succ_cons,
      List.drop_zero, List.head?_cons]
  · intro cfg fuel st q qs hq
    exact ⟨by simp only [getNextToken, hq], rfl⟩

/-- A tokenizer with a skipping rule and a sequence-returning rule, for
the C4 witness. -/
def skipManyCfg : TokCfg :=
  { lexRules := [("^%s+", fun _ => .skip), ("^%a+", fun _ => .many ["A", "B"])]
    lexRulesByConditions := fun _ => [0, 1]
    tokensMap := fun s =>
      if s = "A" then some 1 else if s = "B" then some 2
      else if s = "$" then some 9 else none }

/-- The tokenizer state after `_match` consumes `" "` of `" x"`. -/
def skipStW : TokState :=
  { string := " x", states := ["INITIAL"], cursor := 1, tokensQueue := [],
    currentLine := 1, currentColumn := 1, currentLineBeginOffset := 0,
    tokenStartOffset := 0, tokenEndOffset := 1, tokenStartLine := 1,
    tokenEndLine := 1, tokenStartColumn := 0, tokenEndColumn := 1 }

/-- The tokenizer state after `_match` consumes `"ab"` of `"ab"`. -/
def manyStW : TokState :=
  { string := "ab", states := ["INITIAL"], cursor := 2, tokensQueue := [],
    currentLine := 1, currentColumn := 2, currentLineBeginOffset := 0,
    tokenStartOffset := 0, tokenEndOffset := 2, tokenStartLine := 1,
    tokenEndLine := 1, tokenStartColumn := 0, tokenEndColumn := 2 }

/-- Witness for C4: the three behaviors at concrete inputs (a skipped
whitespace lexeme, a handler returning the sequence `["A", "B"]`, and a
queued token served without scanning). -/
theorem c4_skip_and_queue_witness :
    (getNextToken skipManyCfg 2 (initString " x") =
      getNextToken skipManyCfg 1
        (scanBump skipStW (strRest (initString " x")) " ")) ∧
    (getNextToken skipManyCfg 1 (initString "ab") =
      .tok
        (toToken skipManyCfg
          { scanBump manyStW (strRest (initString "ab")) "ab" with
            tokensQueue :=
              ["B"] ++ (scanBump manyStW (strRest (initString "ab")) "ab").tokensQueue }
          (some "A") "ab")
        { scanBump manyStW (strRest (initString "ab")) "ab" with
          tokensQueue :=
            ["B"] ++ (scanBump manyStW (strRest (initString "ab")) "ab").tokensQueue }) ∧
    (getNextToken skipManyCfg 1
        { initString "z" with tokensQueue := ["Q"] } =
      .tok
        (toToken skipManyCfg
          { { initString "z" with tokensQueue := ["Q"] } with tokensQueue := [] }
          (some "Q") "")
        { { initString "z" with tokensQueue := ["Q"] } with tokensQueue := [] } ∧
      ({ { initString "z" with tokensQueue := ["Q"] } with
          tokensQueue := [] }).cursor =
        ({ initString "z" with tokensQueue := ["Q"] }).cursor) :=
  ⟨c4_skip_and_queue.1 skipManyCfg 1 (initString " x") " " (fun _ => .skip)
      skipStW rfl rfl rfl rfl,
   c4_skip_and_queue.2.1 skipManyCfg 0 (initString "ab") "ab"
      (fun _ => .many ["A", "B"]) manyStW "A" ["B"] rfl rfl rfl rfl,
   c4_skip_and_queue.2.2 skipManyCfg 0
      { initString "z" with tokensQueue := ["Q"] } "Q" [] rfl⟩

/-- Every token built by `_toToken` carries `value = some yytext`, so it
never equals `EOF_TOKEN` (whose `value` is `nil`). -/
theorem toToken_ne_eofToken (cfg : TokCfg) (st : TokState) (ty : Option String)
    (txt : String) : toToken cfg st ty txt ≠ eofToken cfg := by
  intro h
  have hv := congrArg Token.value h
  simp [toToken, eofToken] at hv

/-- C5: whenever tokenizing runs to completion (the driver stops at the
first `EOF_TOKEN`), the emitted token list contains exactly one
end-of-input `$` token, and it is the last token — i.e. it is produced
only after all tokens for the input have been emitted (regular tokens
always differ from `EOF_TOKEN`, and the queue is drained before the EOF
branches of `getNextToken` can fire). -/
theorem c5_single_eof (cfg : TokCfg) (fuel : Nat) :
    ∀ (st : TokState) (ts : List Token), getTokens cfg fuel st = some ts →
      ts.getLast? = some (eofToken cfg) ∧ ts.count (eofToken cfg) = 1 := by
  induction fuel with
  | zero => intro st ts h; simp [getTokens] at h
  | succ fuel ih =>
    intro st ts h
    simp only [getTokens] at h
    cases hg : getNextToken cfg (fuel + 1) st with
    | fuelOut => rw [hg] at h; simp at h
    | unexpected s l c => rw [hg] at h; simp at h
    | tok t st' =>
      rw [hg] at h
      by_cases he : t = eofToken cfg
      · simp only [he, if_pos rfl] at h
        have hts : ts = [eofToken cfg] := by cases h; rfl
        subst hts
        simp [List.count_cons]
      · simp only [if_neg he] at h
        cases hgt : getTokens cfg fuel st' with
        | none => rw [hgt] at h; simp at h
        | some ts' =>
          rw [hgt] at h
          have h' : t :: ts' = ts := by simpa using h
          obtain ⟨hl, hc⟩ := ih st' ts' hgt
          subst h'
          have hne : ts' ≠ [] := by
            intro hnil; rw [hnil] at hl; simp at hl
          constructor
          · cases ts' with
            | nil => exact absurd rfl hne
            | cons x xs => simpa [List.getLast?_cons_cons] using hl
          · rw [List.count_cons]
            simp [hc]
            exact he

/-- Witness for C5: tokenizing `"1"` with the `%d+ → NUMBER` rule yields
one `NUMBER` token followed by exactly one `$` token. -/
theorem c5_single_eof_witness :
    ([{ type := some 1, value := some "1", startOffset := some 0,
        endOffset := some 1, startLine := some 1, endLine := some 1,
        startColumn := some 0, endColumn := some 1 },
      { type := some 2, value := none, startOffset := none,
        endOffset := none, startLine := none, endLine := none,
        startColumn := none, endColumn := none }] : List Token).getLast? =
        some (eofToken numberCfg) ∧
      ([{ type := some 1, value := some "1", startOffset := some 0,
          endOffset := some 1, startLine := some 1, endLine := some 1,
          startColumn := some 0, endColumn := some 1 },
        { type := some 2, value := none, startOffset := none,
          endOffset := none, startLine := none, endLine := none,
          startColumn := none, endColumn := none }] : List Token).count
          (eofToken numberCfg) = 1 :=
  c5_single_eof numberCfg 3 (initString "1") _ (by decide)

/-- A string occurs verbatim inside `a ++ b ++ c` at position `b`. -/
theorem strOccurs_of_eq (a b c : String) : strOccurs b (a ++ b ++ c) :=
  ⟨a.data, c.data, by simp [strData_append]⟩

/-- A string occurs verbatim at the front of `b ++ t`. -/
theorem strOccurs_self_append (b t : String) : strOccurs b (b ++ t) :=
  strOccurs_of_eq "" b t

/-- Occurrence is preserved by prepending text. -/
theorem strOccurs_mono_left (t : String) {b s : String} (h : strOccurs b s) :
    strOccurs b (t ++ s) := by
  obtain ⟨p, q, hp⟩ := h
  exact ⟨t.data ++ p, q, by simp [strData_append, hp]⟩

/-- Occurrence is preserved by appending text. -/
theorem strOccurs_mono_right (t : String) {b s : String} (h : strOccurs b s) :
    strOccurs b (s ++ t) := by
  obtain ⟨p, q, hp⟩ := h
  exact ⟨p, q ++ t.data, by simp [strData_append, hp]⟩

/-- Verbatim occurrence is transitive. -/
theorem strOccurs_trans {a b c : String} (h1 : strOccurs a b)
    (h2 : strOccurs b c) : strOccurs a c := by
  obtain ⟨p, q, hp⟩ := h1
  obtain ⟨r, s, hr⟩ := h2
  exact ⟨r ++ p, q ++ s, by simp [hr, hp]⟩

/-- Every element of a joined list occurs verbatim in the join. -/
theorem strOccurs_joinSep (sep : String) (xs : List String) (x : String)
    (hx : x ∈ xs) : strOccurs x (joinSep sep xs) := by
  induction xs with
  | nil => simp at hx
  | cons y ys ih =>
    cases ys with
    | nil =>
      have : x = y := by simpa using hx
      subst this
      exact ⟨[], [], by simp [joinSep]⟩
    | cons z zs =>
      rcases List.mem_cons.mp hx with h | h
      · subst h
        exact strOccurs_mono_right _ (strOccurs_mono_right _ ⟨[], [], by simp⟩)
      · exact strOccurs_mono_left (y ++ sep) (ih h)

/-- Every handler of the list is rendered (at some index) by
`_generateHandlers`. -/
theorem handlerDecl_mem (classPrefix name : String) (hs : List Handler)
    (h : Handler) (hh : h ∈ hs) :
    ∀ i, ∃ j, handlerDecl classPrefix name j h ∈
      generateHandlersFrom classPrefix name i hs := by
  induction hs with
  | nil => simp at hh
  | cons h' hs' ih =>
    intro i
    rcases List.mem_cons.mp hh with he | he
    · subst he
      exact ⟨i, by simp [generateHandlersFrom]⟩
    · obtain ⟨j, hj⟩ := ih he (i + 1)
      exact ⟨j, by simp [generateHandlersFrom, hj]⟩

/-- The handler's action text occurs verbatim in its rendered
declaration. -/
theorem strOccurs_action_decl (classPrefix name : String) (j : Nat)
    (h : Handler) : strOccurs h.action (handlerDecl classPrefix name j h) :=
  strOccurs_of_eq
    ("\nfunction " ++ classPrefix ++ name ++ toString (j + 1) ++ "(" ++
      h.args ++ ")\n\t\t") h.action "\nend"

/-- The action of any handler in the list occurs verbatim in the joined
handler declarations. -/
theorem strOccurs_handlers (classPrefix name sep : String) (i : Nat)
    (hs : List Handler) (h : Handler) (hh : h ∈ hs) :
    strOccurs h.action
      (joinSep sep (generateHandlersFrom classPrefix name i hs)) := by
  obtain ⟨j, hj⟩ := handlerDecl_mem classPrefix name hs h hh i
  exact strOccurs_trans (strOccurs_action_decl classPrefix name j h)
    (strOccurs_joinSep sep _ _ hj)

/-- `buildSemanticAction` over all productions pushes, in production
order, one handler per production with a non-empty action. -/
theorem buildAll_handlers (ps : List ProdData) :
    ∀ hs, (buildAllSemanticActions ps hs).2 =
      hs ++ (ps.filter (fun p => p.actionCode ≠ "")).map
        (fun p => ⟨joinSep "," p.params, p.actionCode ++ ";"⟩) := by
  induction ps with
  | nil => intro hs; simp [buildAllSemanticActions]
  | cons p ps' ih =>
    intro hs
    by_cases hp : p.actionCode = ""
    · simp [buildAllSemanticActions, buildSemanticAction, hp, ih]
    · simp [buildAllSemanticActions, buildSemanticAction, hp, ih]

/-- `generateLexRules` renders the rules in grammar order — rule `i` gets
handler name `_lexRule(i+1)` — and pushes one handler per rule, in the
same order, with action `getRawHandler() + ';'`. -/
theorem genLexAux_spec (rs : List LexRuleData) :
    ∀ hs, (generateLexRulesAux rs hs).1 = lexRuleEntriesFrom hs.length rs ∧
      (generateLexRulesAux rs hs).2 =
        hs ++ rs.map (fun r => ⟨"", r.rawHandler ++ ";"⟩) := by
  induction rs with
  | nil => intro hs; simp [generateLexRulesAux, lexRuleEntriesFrom]
  | cons r rs' ih =>
    intro hs
    have h := ih (hs ++ [⟨"", r.rawHandler ++ ";"⟩])
    constructor
    · simp only [generateLexRulesAux, lexRuleEntriesFrom, h.1]
      simp
    · simp only [generateLexRulesAux, h.2]
      simp

/-- C1: every production and lex rule with a non-empty semantic-action
body has that body exported character-for-character unchanged — as a
contiguous opaque substring — into the generated handler declarations
(`buildSemanticAction` stores the body with a `';'` appended after it and
`_generateHandlers` wraps it in a `function ... end` declaration; neither
alters the body text itself). -/
theorem c1_semantic_actions_preserved :
    (∀ (prods : List ProdData) (p : ProdData), p ∈ prods →
      p.actionCode ≠ "" →
      strOccurs p.actionCode (generateProductionHandlers prods)) ∧
    (∀ (rules : List LexRuleData) (r : LexRuleData), r ∈ rules →
      r.rawHandler ≠ "" →
      strOccurs r.rawHandler (generateLexHandlers rules)) := by
  constructor
  · intro prods p hp hne
    have hmem : (⟨joinSep "," p.params, p.actionCode ++ ";"⟩ : Handler) ∈
        (buildAllSemanticActions prods []).2 := by
      rw [buildAll_handlers prods []]
      simp only [List.nil_append]
      exact List.mem_map_of_mem _ (List.mem_filter.mpr ⟨hp, by simpa using hne⟩)
    have h1 := strOccurs_handlers "parser:" "_handler" "\n" 0 _ _ hmem
    exact strOccurs_trans (strOccurs_self_append p.actionCode ";") h1
  · intro rules r hr hne
    have hmem : (⟨"", r.rawHandler ++ ";"⟩ : Handler) ∈
        (generateLexRulesAux rules []).2 := by
      rw [(genLexAux_spec rules []).2]
      simp only [List.nil_append]
      exact List.mem_map_of_mem _ hr
    have h1 := strOccurs_handlers "Tokenizer:" "_lexRule" "\n\n" 0 _ _ hmem
    exact strOccurs_trans (strOccurs_self_append r.rawHandler ";") h1

/-- Witness for C1: the calculator production action `$$ = $1 + $3` and a
lex action occur verbatim in the generated handler sections. -/
theorem c1_semantic_actions_preserved_witness :
    strOccurs "$$ = $1 + $3"
      (generateProductionHandlers
        [{ params := ["$1", "$2", "$3"], actionCode := "$$ = $1 + $3" }]) ∧
    strOccurs "return NUMBER"
      (generateLexHandlers
        [{ rawMatcher := "%d+", rawHandler := "return NUMBER",
           caseInsensitive := false }]) :=
  ⟨c1_semantic_actions_preserved.1
      [{ params := ["$1", "$2", "$3"], actionCode := "$$ = $1 + $3" }]
      { params := ["$1", "$2", "$3"], actionCode := "$$ = $1 + $3" }
      (by simp) (by decide),
   c1_semantic_actions_preserved.2
      [{ rawMatcher := "%d+", rawHandler := "return NUMBER",
         caseInsensitive := false }]
      { rawMatcher := "%d+", rawHandler := "return NUMBER",
        caseInsensitive := false }
      (by simp) (by decide)⟩

/-- C9: the emitter is a pure function of the grammar data — equal inputs
give byte-identical exports — and its iteration order is fixed: the
`lexRules` entries follow the grammar's rule order with positional handler
names `_lexRule(i+1)`, and the handler list is the rule list mapped in
order. -/
theorem c9_emit_deterministic :
    (∀ a b : EmitInput, a = b → emitLua a = emitLua b) ∧
    (∀ rules : List LexRuleData,
      (generateLexRulesAux rules []).1 = lexRuleEntriesFrom 0 rules ∧
      (generateLexRulesAux rules []).2 =
        rules.map (fun r => ⟨"", r.rawHandler ++ ";"⟩)) := by
  constructor
  · intro a b h
    rw [h]
  · intro rules
    simpa using genLexAux_spec rules []

/-- Concrete emitter input for the C9 witness. -/
def emitInputW : EmitInput :=
  { table := .obj [("0", .obj [("NUMBER", .str "s1")])]
    tokens := .obj [("NUMBER", .num 1), ("$", .num 2)]
    lexRules := [{ rawMatcher := "%d+", rawHandler := "return NUMBER",
                   caseInsensitive := false },
                 { rawMatcher := "%s+", rawHandler := "",
                   caseInsensitive := false }]
    byConditions := [("INITIAL", [0, 1])]
    productions := [{ params := ["$1"], actionCode := "$$ = $1" }] }

/-- Witness for C9 at a concrete grammar export. -/
theorem c9_emit_deterministic_witness :
    emitLua emitInputW = emitLua emitInputW ∧
    ((generateLexRulesAux emitInputW.lexRules []).1 =
        lexRuleEntriesFrom 0 emitInputW.lexRules ∧
      (generateLexRulesAux emitInputW.lexRules []).2 =
        emitInputW.lexRules.map (fun r => ⟨"", r.rawHandler ++ ";"⟩)) :=
  ⟨c9_emit_deterministic.1 emitInputW emitInputW rfl,
   c9_emit_deterministic.2 emitInputW.lexRules⟩

/-- The diagnostic map records symbol `s` among the conflicting lookaheads
of reducing production `k`. -/
def SRin (m : List (String × List String)) (k s : String) : Prop :=
  ∃ syms, (k, syms) ∈ m ∧ s ∈ syms

/-- `addSR` records the pushed symbol under its key. -/
theorem addSR_self (m : List (String × List String)) (k s : String) :
    SRin (addSR m k s) k s := by
  unfold addSR
  by_cases h : m.any (·.1 = k)
  · simp only [if_pos h]
    obtain ⟨⟨k', v⟩, hmem, hk⟩ := List.any_eq_true.mp h
    have hk' : k' = k := by simpa using hk
    subst hk'
    refine ⟨v ++ [s], ?_, by simp⟩
    have := List.mem_map_of_mem
      (fun e => if e.1 = k' then (e.1, e.2 ++ [s]) else e) hmem
    simpa using this
  · simp only [if_neg h]
    exact ⟨[s], by simp, by simp⟩

/-- `addSR` keeps every previously recorded symbol. -/
theorem addSR_mono (m : List (String × List String)) (k s k' s' : String)
    (h : SRin m k' s') : SRin (addSR m k s) k' s' := by
  obtain ⟨syms, hmem, hs⟩ := h
  unfold addSR
  by_cases hany : m.any (·.1 = k)
  · simp only [if_pos hany]
    by_cases hk : k' = k
    · subst hk
      refine ⟨syms ++ [s], ?_, by simp [hs]⟩
      have := List.mem_map_of_mem
        (fun e => if e.1 = k' then (e.1, e.2 ++ [s]) else e) hmem
      simpa using this
    · refine ⟨syms, ?_, hs⟩
      have := List.mem_map_of_mem
        (fun e => if e.1 = k then (e.1, e.2 ++ [s]) else e) hmem
      simpa [hk] using this
  · exact ⟨syms, by simp [if_neg hany, hmem], hs⟩

/-- `addRR` records the pair under its key. -/
theorem addRR_self (m : List (String × (String × String))) (k : String)
    (v : String × String) : (k, v) ∈ addRR m k v := by
  unfold addRR
  by_cases h : m.any (·.1 = k)
  · simp only [if_pos h]
    obtain ⟨⟨k', v'⟩, hmem, hk⟩ := List.any_eq_true.mp h
    have hk' : k' = k := by simpa using hk
    subst hk'
    have := List.mem_map_of_mem (fun e => if e.1 = k' then (e.1, v) else e) hmem
    simpa using this
  · simp [if_neg h]

/-- `addRR` keeps entries whose value is determined by their key (the
overwrite rewrites an equal value). -/
theorem addRR_mono (m : List (String × (String × String)))
    (f : String → String × String) (k k' : String)
    (h : (k', f k') ∈ m) : (k', f k') ∈ addRR m k (f k) := by
  unfold addRR
  by_cases hany : m.any (·.1 = k)
  · simp only [if_pos hany]
    by_cases hk : k' = k
    · subst hk
      have := List.mem_map_of_mem
        (fun e => if e.1 = k' then (e.1, f k') else e) h
      simpa using this
    · have := List.mem_map_of_mem
        (fun e => if e.1 = k then (e.1, f k) else e) h
      simpa [hk] using this
  · simp [if_neg hany, h]

/-- `processCell` succeeds on any cell whose unresolved conflict has a
recognized shape. -/
theorem processCell_ok (acc : ValidateAcc) (sym : String)
    (cell : ConflictCell)
    (h : cell.resolved = false →
      getEntryType cell.conflict ≠ LREntryKind.unknown) :
    ∃ acc', processCell acc sym cell = .ok acc' := by
  unfold processCell
  split
  · next hr =>
    split
    · exact ⟨_, rfl⟩
    · exact ⟨_, rfl⟩
    · next heq => exact absurd heq (h hr)
  · exact ⟨acc, rfl⟩

/-- `processCell` never drops previously recorded diagnostics. -/
theorem processCell_mono (acc acc' : ValidateAcc) (sym : String)
    (cell : ConflictCell) (h : processCell acc sym cell = .ok acc') :
    (∀ k s, SRin acc.srConflicts k s → SRin acc'.srConflicts k s) ∧
    (∀ k, (k, rrVal k) ∈ acc.rrConflicts →
      (k, rrVal k) ∈ acc'.rrConflicts) := by
  unfold processCell at h
  split at h
  · split at h
    · cases h
      exact ⟨fun k s hs => addSR_mono _ _ _ _ _ hs, fun k hk => hk⟩
    · cases h
      exact ⟨fun k s hs => hs, fun k hk => addRR_mono _ rrVal _ _ hk⟩
    · cases h
  · cases h
    exact ⟨fun _ _ hs => hs, fun _ hk => hk⟩

/-- An unresolved shift-reduce cell records its symbol under the reducing
production. -/
theorem processCell_adds_sr (acc acc' : ValidateAcc) (sym : String)
    (cell : ConflictCell) (hr : cell.resolved = false)
    (het : getEntryType cell.conflict = .srConflict)
    (h : processCell acc sym cell = .ok acc') :
    SRin acc'.srConflicts (srReduceProd cell.conflict) sym := by
  unfold processCell at h
  split at h
  · split at h
    · cases h
      exact addSR_self _ _ _
    · next heq => rw [het] at heq; cases heq
    · cases h
  · next hr' => exact absurd hr hr'

/-- An unresolved reduce-reduce cell records its production pair. -/
theorem processCell_adds_rr (acc acc' : ValidateAcc) (sym : String)
    (cell : ConflictCell) (hr : cell.resolved = false)
    (het : getEntryType cell.conflict = .rrConflict)
    (h : processCell acc sym cell = .ok acc') :
    (cell.conflict, rrVal cell.conflict) ∈ acc'.rrConflicts := by
  unfold processCell at h
  split at h
  · split at h
    · next heq => rw [het] at heq; cases heq
    · cases h
      exact addRR_self _ _ _
    · cases h
  · next hr' => exact absurd hr hr'

/-- The symbol loop never drops previously recorded diagnostics. -/
theorem processCells_mono (cells : List (String × ConflictCell)) :
    ∀ acc acc', processCells acc cells = .ok acc' →
      (∀ k s, SRin acc.srConflicts k s → SRin acc'.srConflicts k s) ∧
      (∀ k, (k, rrVal k) ∈ acc.rrConflicts →
        (k, rrVal k) ∈ acc'.rrConflicts) := by
  induction cells with
  | nil =>
    intro acc acc' h
    cases h
    exact ⟨fun _ _ hs => hs, fun _ hk => hk⟩
  | cons pc rest ih =>
    obtain ⟨sym, cell⟩ := pc
    intro acc acc' h
    simp only [processCells] at h
    cases hpc : processCell acc sym cell with
    | error e => rw [hpc] at h; cases h
    | ok a =>
      rw [hpc] at h
      have h1 := processCell_mono acc a sym cell hpc
      have h2 := ih a acc' h
      exact ⟨fun k s hs => h2.1 k s (h1.1 k s hs),
        fun k hk => h2.2 k (h1.2 k hk)⟩

/-- The symbol loop succeeds on well-shaped conflicts data. -/
theorem processCells_ok (cells : List (String × ConflictCell)) :
    ∀ acc, (∀ pc ∈ cells, pc.2.resolved = false →
        getEntryType pc.2.conflict ≠ LREntryKind.unknown) →
      ∃ acc', processCells acc cells = .ok acc' := by
  induction cells with
  | nil => intro acc _; exact ⟨acc, rfl⟩
  | cons pc rest ih =>
    obtain ⟨sym, cell⟩ := pc
    intro acc h
    obtain ⟨a, ha⟩ := processCell_ok acc sym cell (h (sym, cell) (by simp))
    obtain ⟨acc', hacc⟩ := ih a fun pc hpc => h pc (List.mem_cons_of_mem _ hpc)
    refine ⟨acc', ?_⟩
    simp only [processCells]
    rw [ha]
    exact hacc

/-- Every unresolved shift-reduce cell of the list ends up recorded. -/
theorem processCells_adds_sr (cells : List (String × ConflictCell)) :
    ∀ acc acc', processCells acc cells = .ok acc' →
      ∀ sym cell, (sym, cell) ∈ cells → cell.resolved = false →
        getEntryType cell.conflict = .srConflict →
        SRin acc'.srConflicts (srReduceProd cell.conflict) sym := by
  induction cells with
  | nil => intro acc acc' h sym cell hmem; simp at hmem
  | cons pc rest ih =>
    obtain ⟨sym0, cell0⟩ := pc
    intro acc acc' h sym cell hmem hr het
    simp only [processCells] at h
    cases hpc : processCell acc sym0 cell0 with
    | error e => rw [hpc] at h; cases h
    | ok a =>
      rw [hpc] at h
      rcases List.mem_cons.mp hmem with he | he
      · rw [Prod.mk.injEq] at he
        obtain ⟨rfl, rfl⟩ := he
        exact (processCells_mono rest a acc' h).1 _ _
          (processCell_adds_sr acc a sym cell hr het hpc)
      · exact ih a acc' h sym cell he hr het

/-- Every unresolved reduce-reduce cell of the list ends up recorded. -/
theorem processCells_adds_rr (cells : List (String × ConflictCell)) :
    ∀ acc acc', processCells acc cells = .ok acc' →
      ∀ sym cell, (sym, cell) ∈ cells → cell.resolved = false →
        getEntryType cell.conflict = .rrConflict →
        (cell.conflict, rrVal cell.conflict) ∈ acc'.rrConflicts := by
  induction cells with
  | nil => intro acc acc' h sym cell hmem; simp at hmem
  | cons pc rest ih =>
    obtain ⟨sym0, cell0⟩ := pc
    intro acc acc' h sym cell hmem hr het
    simp only [processCells] at h
    cases hpc : processCell acc sym0 cell0 with
    | error e => rw [hpc] at h; cases h
    | ok a =>
      rw [hpc] at h
      rcases List.mem_cons.mp hmem with he | he
      · rw [Prod.mk.injEq] at he
        obtain ⟨rfl, rfl⟩ := he
        exact (processCells_mono rest a acc' h).2 _
          (processCell_adds_rr acc a sym cell hr het hpc)
      · exact ih a acc' h sym cell he hr het

/-- The state loop never drops previously recorded diagnostics. -/
theorem processStates_mono (data : ConflictsData) :
    ∀ acc acc', processStates acc data = .ok acc' →
      (∀ k s, SRin acc.srConflicts k s → SRin acc'.srConflicts k s) ∧
      (∀ k, (k, rrVal k) ∈ acc.rrConflicts →
        (k, rrVal k) ∈ acc'.rrConflicts) := by
  induction data with
  | nil =>
    intro acc acc' h
    cases h
    exact ⟨fun _ _ hs => hs, fun _ hk => hk⟩
  | cons sc rest ih =>
    obtain ⟨stName, cells⟩ := sc
    intro acc acc' h
    simp only [processStates] at h
    cases hpc : processCells acc cells with
    | error e => rw [hpc] at h; cases h
    | ok a =>
      rw [hpc] at h
      have h1 := processCells_mono cells acc a hpc
      have h2 := ih a acc' h
      exact ⟨fun k s hs => h2.1 k s (h1.1 k s hs),
        fun k hk => h2.2 k (h1.2 k hk)⟩

/-- The state loop succeeds on well-shaped conflicts data. -/
theorem processStates_ok (data : ConflictsData) :
    ∀ acc, (∀ sc ∈ data, ∀ pc ∈ sc.2, pc.2.resolved = false →
        getEntryType pc.2.conflict ≠ LREntryKind.unknown) →
      ∃ acc', processStates acc data = .ok acc' := by
  induction data with
  | nil => intro acc _; exact ⟨acc, rfl⟩
  | cons sc rest ih =>
    obtain ⟨stName, cells⟩ := sc
    intro acc h
    obtain ⟨a, ha⟩ := processCells_ok cells acc
      (fun pc hpc => h (stName, cells) (by simp) pc hpc)
    obtain ⟨acc', hacc⟩ := ih a fun sc hsc => h sc (List.mem_cons_of_mem _ hsc)
    refine ⟨acc', ?_⟩
    simp only [processStates]
    rw [ha]
    exact hacc

/-- Every unresolved shift-reduce cell anywhere in the data ends up
recorded. -/
theorem processStates_adds_sr (data : ConflictsData) :
    ∀ acc acc', processStates acc data = .ok acc' →
      ∀ sc ∈ data, ∀ pc ∈ sc.2, pc.2.resolved = false →
        getEntryType pc.2.conflict = .srConflict →
        SRin acc'.srConflicts (srReduceProd pc.2.conflict) pc.1 := by
  induction data with
  | nil => intro acc acc' h sc hsc; simp at hsc
  | cons sc0 rest ih =>
    obtain ⟨stName, cells⟩ := sc0
    intro acc acc' h sc hsc pc hpc hr het
    simp only [processStates] at h
    cases hc : processCells acc cells with
    | error e => rw [hc] at h; cases h
    | ok a =>
      rw [hc] at h
      rcases List.mem_cons.mp hsc with he | he
      · subst he
        exact (processStates_mono rest a acc' h).1 _ _
          (processCells_adds_sr cells acc a hc pc.1 pc.2
            (by simpa using hpc) hr het)
      · exact ih a acc' h sc he pc hpc hr het

/-- Every unresolved reduce-reduce cell anywhere in the data ends up
recorded. -/
theorem processStates_adds_rr (data : ConflictsData) :
    ∀ acc acc', processStates acc data = .ok acc' →
      ∀ sc ∈ data, ∀ pc ∈ sc.2, pc.2.resolved = false →
        getEntryType pc.2.conflict = .rrConflict →
        (pc.2.conflict, rrVal pc.2.conflict) ∈ acc'.rrConflicts := by
  induction data with
  | nil => intro acc acc' h sc hsc; simp at hsc
  | cons sc0 rest ih =>
    obtain ⟨stName, cells⟩ := sc0
    intro acc acc' h sc hsc pc hpc hr het
    simp only [processStates] at h
    cases hc : processCells acc cells with
    | error e => rw [hc] at h; cases h
    | ok a =>
      rw [hc] at h
      rcases List.mem_cons.mp hsc with he | he
      · subst he
        exact (processStates_mono rest a acc' h).2 _
          (processCells_adds_rr cells acc a hc pc.1 pc.2
            (by simpa using hpc) hr het)
      · exact ih a acc' h sc he pc hpc hr het

/-- C7: on conflicts data whose unresolved entries all have a recognized
shape (the spec's `s·/r·` or `r·/r·` encodings), `validateLRGrammar`
returns normally (it reports; it does not exit), and its diagnostics list,
for every unresolved shift-reduce conflict, the conflicting lookahead
symbol under the reducing production, and for every unresolved
reduce-reduce conflict, the pair of competing production numbers. -/
theorem c7_validate_reports (data : ConflictsData)
    (hwf : ∀ sc ∈ data, ∀ pc ∈ sc.2, pc.2.resolved = false →
      getEntryType pc.2.conflict ≠ LREntryKind.unknown) :
    ∃ res, validateLRGrammar data = .ok res ∧
      (∀ sc ∈ data, ∀ pc ∈ sc.2, pc.2.resolved = false →
        getEntryType pc.2.conflict = .srConflict →
        SRin res.srConflicts (srReduceProd pc.2.conflict) pc.1) ∧
      (∀ sc ∈ data, ∀ pc ∈ sc.2, pc.2.resolved = false →
        getEntryType pc.2.conflict = .rrConflict →
        (pc.2.conflict, rrVal pc.2.conflict) ∈ res.rrConflicts) := by
  obtain ⟨res, hres⟩ := processStates_ok data ⟨false, [], []⟩ hwf
  refine ⟨res, hres, ?_, ?_⟩
  · intro sc hsc pc hpc hr het
    exact processStates_adds_sr data _ res hres sc hsc pc hpc hr het
  · intro sc hsc pc hpc hr het
    exact processStates_adds_rr data _ res hres sc hsc pc hpc hr het

/-- Conflicts data for the C7 witness: two unresolved shift-reduce cells
on the same reducing production and one unresolved reduce-reduce cell. -/
def conflictsDataW : ConflictsData :=
  [("5", [("+", { resolved := false, conflict := "s2/r3" }),
          ("*", { resolved := false, conflict := "s4/r3" })]),
   ("7", [("$", { resolved := false, conflict := "r1/r2" })])]

/-- Witness for C7 at concrete conflicts data. -/
theorem c7_validate_reports_witness :
    ∃ res, validateLRGrammar conflictsDataW = .ok res ∧
      SRin res.srConflicts "3" "+" ∧ SRin res.srConflicts "3" "*" ∧
      ("r1/r2", ("1", "2")) ∈ res.rrConflicts := by
  obtain ⟨res, hok, hsr, hrr⟩ := c7_validate_reports conflictsDataW (by decide)
  have h3 : srReduceProd "s2/r3" = "3" := by decide
  have h3' : srReduceProd "s4/r3" = "3" := by decide
  have hv : rrVal "r1/r2" = ("1", "2") := by decide
  refine ⟨res, hok, ?_, ?_, ?_⟩
  · have := hsr ("5", [("+", { resolved := false, conflict := "s2/r3" }),
        ("*", { resolved := false, conflict := "s4/r3" })])
      (by simp [conflictsDataW])
      ("+", { resolved := false, conflict := "s2/r3" }) (by simp)
      rfl (by decide)
    rwa [h3] at this
  · have := hsr ("5", [("+", { resolved := false, conflict := "s2/r3" }),
        ("*", { resolved := false, conflict := "s4/r3" })])
      (by simp [conflictsDataW])
      ("*", { resolved := false, conflict := "s4/r3" }) (by simp)
      rfl (by decide)
    rwa [h3'] at this
  · have := hrr ("7", [("$", { resolved := false, conflict := "r1/r2" })])
      (by simp [conflictsDataW])
      ("$", { resolved := false, conflict := "r1/r2" }) (by simp)
      rfl (by decide)
    rwa [hv] at this
